import Mathlib

/-!
Verification of the webdav file server (path sanitization, URL-to-path
resolution, and the GET/HEAD/PUT/DELETE handlers) against its design
contract.  The Go sources are embedded shallowly: strings are Lean
`String`s (lists of characters), the storage backend is an explicit
in-memory state, machine I/O nondeterminism (stat errors, remove errors,
body-copy errors) is made explicit as data, and every handler is a pure
function from server configuration, backend state and request to a
response, a new backend state and a trace of the backend calls it made.

The model targets a Unix host: `filepath.Separator` is `'/'`, hence
`filepath.FromSlash` is the identity and the separator clause of the
`Dir.sanitizePath` guard is vacuous.
-/

namespace Webdav

/-! ## Slash-separated path segments

`path.Clean` and `filepath.Join` from the Go standard library are modelled
over `List Char`.  A path is split at `'/'` characters into segments;
cleaning processes the segments left to right against a stack, which is
exactly the iterative rule set documented for `path.Clean`:

  1. successive slashes collapse (empty segments are dropped);
  2. each `"."` segment is dropped;
  3. an inner `".."` segment erases the preceding non-`".."` segment;
  4. a `".."` at the start of a rooted path is dropped.
-/

/-- The segment `".."` as a character list. -/
def ddSeg : List Char := ['.', '.']

/-- Split a character list at `'/'`; `acc` holds the (reversed) characters of
the segment being read.  Models `strings.Split(s, "/")`. -/
def splitAux : List Char → List Char → List (List Char)
  | [], acc => [acc.reverse]
  | c :: cs, acc => if c = '/' then acc.reverse :: splitAux cs [] else splitAux cs (c :: acc)

/-- The segments of a slash-separated path. -/
def splitSegs (s : List Char) : List (List Char) := splitAux s []

/-- One step of `path.Clean`'s segment processing: `stk` is the stack of
already-emitted segments, most recent first.  Empty and `"."` segments are
dropped; `".."` pops a preceding plain segment, accumulates on a relative
path whose output so far is all `".."`, and is dropped at the root of a
rooted path; any other segment is pushed. -/
def cleanPush (rooted : Bool) (stk : List (List Char)) (seg : List Char) : List (List Char) :=
  if seg = [] ∨ seg = ['.'] then stk
  else if seg = ddSeg then
    match stk with
    | [] => if rooted then [] else [ddSeg]
    | t :: rest => if t = ddSeg then ddSeg :: t :: rest else rest
  else seg :: stk

/-- The cleaned segment list of a path, in order. -/
def cleanSegs (rooted : Bool) (segs : List (List Char)) : List (List Char) :=
  (segs.foldl (cleanPush rooted) []).reverse

/-- Join segments with `'/'`. -/
def joinSegs : List (List Char) → List Char
  | [] => []
  | [s] => s
  | s :: s2 :: rest => s ++ '/' :: joinSegs (s2 :: rest)

/-- Does the path start with `'/'`? -/
def isRooted : List Char → Bool
  | [] => false
  | c :: _ => c = '/'

/-- Models Go `path.Clean`: the empty path cleans to `"."`, otherwise the
segments are cleaned and rejoined, a rooted result keeps its leading `'/'`
and an emptied relative result becomes `"."`. -/
def pathClean (s : List Char) : List Char :=
  if s = [] then ['.']
  else
    let L := cleanSegs (isRooted s) (splitSegs s)
    if isRooted s then '/' :: joinSegs L
    else if L = [] then ['.']
    else joinSegs L

/-- Models Go `path.Split`'s directory part: everything up to and including
the final `'/'` (empty when there is no slash). -/
def dirPart (s : List Char) : List Char :=
  (s.reverse.dropWhile (fun c => ¬(c = '/'))).reverse

/-- Models Go `path.Dir`: `Clean` of the directory part of `path.Split`. -/
def goPathDir (p : String) : String := ⟨pathClean (dirPart p.data)⟩

/-- Models Go `filepath.Join` on two elements (Unix separator): empty
elements are skipped and the slash-joined remainder is cleaned. -/
def filepathJoin (a b : List Char) : List Char :=
  if a = [] then (if b = [] then [] else pathClean b)
  else pathClean (a ++ '/' :: b)

/-! ## constants.go -/

/-- The package's internal error values (`constants.go`). -/
inductive GoError where
  | ErrInvalidCharPath
  | ErrNotImplemented
deriving DecidableEq, Repr

def StatusOK : Nat := 200
def StatusCreated : Nat := 201
def StatusNoContent : Nat := 204
def StatusNotModified : Nat := 304
def StatusBadRequest : Nat := 400
def StatusForbidden : Nat := 403
def StatusNotFound : Nat := 404
def StatusMethodNotAllowed : Nat := 405
def StatusConflict : Nat := 409
def StatusInternalServerError : Nat := 500

/-! ## Dir.sanitizePath (filesystem backend) -/

/-- Models `Dir.sanitizePath` on a Unix host.  The guard
`filepath.Separator != '/' && strings.IndexRune(name, filepath.Separator) >= 0`
is vacuously false there, so only the null-byte check can fire;
`filepath.FromSlash` is the identity. -/
def sanitizePath (d : String) (name : String) : Except GoError String :=
  if name.data.contains '\x00' then .error .ErrInvalidCharPath
  else
    let dir := if d = "" then "." else d
    .ok ⟨filepathJoin dir.data (pathClean ('/' :: name.data))⟩

/-! ## Where a sanitized path resolves

`resolvedSegs p` is the segment list the host filesystem walks when it
resolves `p` (each `".."` steps up one level, `"."` and empty segments are
skipped): the same stack computation as `path.Clean`.  A path `p` stays
within `root` when `p` has `root`'s rootedness and `p` resolves to `root`'s
resolution extended by descending steps only. -/

def resolvedSegs (p : List Char) : List (List Char) := cleanSegs (isRooted p) (splitSegs p)

/-- `p` can only denote a location at or below `root`. -/
def staysWithin (root p : List Char) : Prop :=
  isRooted p = isRooted root ∧
    ∃ rest, resolvedSegs p = resolvedSegs root ++ rest ∧ ddSeg ∉ rest

/-- A plain path segment: a real name, not a navigation segment. -/
def plainSeg (s : List Char) : Prop := s ≠ [] ∧ s ≠ ['.'] ∧ s ≠ ddSeg

/-- No `'/'` occurs in the segment. -/
def noSlash (s : List Char) : Prop := ∀ c ∈ s, c ≠ '/'

/-! ### Lemmas about splitting -/

theorem splitAux_append (xs ys acc) :
    splitAux (xs ++ '/' :: ys) acc = splitAux xs acc ++ splitAux ys [] := by
  induction xs generalizing acc with
  | nil => simp [splitAux]
  | cons c cs ih =>
    by_cases hc : c = '/' <;> simp [splitAux, hc, ih]

theorem splitAux_noSlash (cs : List Char) (acc : List Char) (hacc : ∀ c ∈ acc, c ≠ '/') :
    ∀ s ∈ splitAux cs acc, noSlash s := by
  induction cs generalizing acc with
  | nil =>
    intro s hs
    simp [splitAux] at hs
    subst hs
    intro c hc
    exact hacc c (by simpa using hc)
  | cons c cs ih =>
    intro s hs
    by_cases hc : c = '/'
    · simp [splitAux, hc] at hs
      rcases hs with h | h
      · subst h; intro x hx; exact hacc x (by simpa using hx)
      · exact ih [] (by simp) s h
    · simp [splitAux, hc] at hs
      refine ih (c :: acc) ?_ s hs
      intro x hx
      rcases List.mem_cons.mp hx with rfl | hx
      · exact hc
      · exact hacc x hx

theorem splitAux_single (cs acc) (h : noSlash cs) : splitAux cs acc = [acc.reverse ++ cs] := by
  induction cs generalizing acc with
  | nil => simp [splitAux]
  | cons c cs ih =>
    have hc : ¬ c = '/' := h c (by simp)
    have htail : noSlash cs := fun x hx => h x (List.mem_cons_of_mem _ hx)
    simp [splitAux, hc, ih (c :: acc) htail]

theorem splitSegs_join (L : List (List Char)) (hne : L ≠ [])
    (h : ∀ s ∈ L, s ≠ [] ∧ noSlash s) : splitSegs (joinSegs L) = L := by
  induction L with
  | nil => exact absurd rfl hne
  | cons x rest ih =>
    cases rest with
    | nil =>
      simpa [joinSegs, splitSegs] using splitAux_single x [] (h x (by simp)).2
    | cons y rest2 =>
      have hx := h x (by simp)
      have hrec : splitSegs (joinSegs (y :: rest2)) = y :: rest2 :=
        ih (by simp) (fun s hs => h s (List.mem_cons_of_mem _ hs))
      calc splitSegs (joinSegs (x :: y :: rest2))
          = splitAux (x ++ '/' :: joinSegs (y :: rest2)) [] := by
            simp [splitSegs, joinSegs]
        _ = splitAux x [] ++ splitAux (joinSegs (y :: rest2)) [] := splitAux_append ..
        _ = [x] ++ (y :: rest2) := by
            rw [splitAux_single x [] hx.2]
            exact congrArg _ hrec
        _ = x :: y :: rest2 := by simp

theorem splitSegs_slash_cons (w : List Char) : splitSegs ('/' :: w) = [] :: splitSegs w := by
  simp [splitSegs, splitAux]

/-! ### Lemmas about the cleaning stack -/

theorem cleanPush_nil (r stk) : cleanPush r stk [] = stk := by
  simp [cleanPush]

theorem cleanPush_plain (r stk seg) (h : plainSeg seg) : cleanPush r stk seg = seg :: stk := by
  rcases h with ⟨h1, h2, h3⟩
  simp [cleanPush, h1, h2, h3]

theorem foldl_cleanPush_plains (r : Bool) (ys : List (List Char))
    (h : ∀ s ∈ ys, plainSeg s) :
    ∀ stk, ys.foldl (cleanPush r) stk = ys.reverse ++ stk := by
  induction ys with
  | nil => intro stk; rfl
  | cons y ys ih =>
    intro stk
    have hy := h y (by simp)
    rw [List.foldl_cons, cleanPush_plain r stk y hy,
      ih (fun s hs => h s (List.mem_cons_of_mem _ hs)) (y :: stk)]
    simp

/-- Stack invariant for the cleaning fold: plain segments satisfying `P` on
top of a run of `".."` segments, the latter empty on rooted paths. -/
def stkInv (P : List Char → Prop) (r : Bool) (l : List (List Char)) : Prop :=
  ∃ a b, l = a ++ b ∧ (∀ s ∈ a, P s ∧ plainSeg s) ∧ (∀ s ∈ b, s = ddSeg) ∧
    (r = true → b = [])

theorem stkInv_push (P : List Char → Prop) (r : Bool) (stk : List (List Char))
    (seg : List Char) (hinv : stkInv P r stk) (hP : P seg) :
    stkInv P r (cleanPush r stk seg) := by
  rcases hinv with ⟨a, b, rfl, ha, hb, hr⟩
  by_cases h0 : seg = [] ∨ seg = ['.']
  · refine ⟨a, b, ?_, ha, hb, hr⟩
    simp [cleanPush, h0]
  · by_cases hdd : seg = ddSeg
    · subst hdd
      cases a with
      | nil =>
        cases b with
        | nil =>
          cases r with
          | false =>
            refine ⟨[], [ddSeg], ?_, by simp, by simp, by simp⟩
            simp [cleanPush, h0]
          | true =>
            refine ⟨[], [], ?_, by simp, by simp, by simp⟩
            simp [cleanPush, h0]
        | cons t rest =>
          have ht : t = ddSeg := hb t (by simp)
          refine ⟨[], ddSeg :: t :: rest, ?_, by simp, ?_, ?_⟩
          · simp [cleanPush, h0, ht]
          · intro s hs
            rcases List.mem_cons.mp hs with rfl | hs
            · rfl
            · exact hb s hs
          · intro hrt; exact absurd (hr hrt) (by simp)
      | cons x a' =>
        have hx := ha x (by simp)
        have hxdd : ¬ x = ddSeg := hx.2.2.2
        refine ⟨a', b, ?_, fun s hs => ha s (List.mem_cons_of_mem _ hs), hb, hr⟩
        simp [cleanPush, h0, hxdd]
    · refine ⟨seg :: a, b, ?_, ?_, hb, hr⟩
      · have : plainSeg seg := by
          push_neg at h0
          exact ⟨h0.1, h0.2, hdd⟩
        simp [cleanPush_plain r _ seg this]
      · intro s hs
        rcases List.mem_cons.mp hs with rfl | hs
        · exact ⟨hP, by push_neg at h0; exact ⟨h0.1, h0.2, hdd⟩⟩
        · exact ha s hs

theorem stkInv_foldl (P : List Char → Prop) (r : Bool) (ys : List (List Char))
    (hys : ∀ s ∈ ys, P s) :
    ∀ stk, stkInv P r stk → stkInv P r (ys.foldl (cleanPush r) stk) := by
  induction ys with
  | nil => intro stk h; exact h
  | cons y ys ih =>
    intro stk h
    rw [List.foldl_cons]
    exact ih (fun s hs => hys s (List.mem_cons_of_mem _ hs)) _
      (stkInv_push P r stk y h (hys y (by simp)))

/-- Shape of `cleanSegs` output: a run of `".."` (empty when rooted)
followed by plain segments drawn from the property `P` of the input. -/
theorem cleanSegs_shape (P : List Char → Prop) (r : Bool) (segs : List (List Char))
    (hsegs : ∀ s ∈ segs, P s) :
    ∃ ds ps, cleanSegs r segs = ds ++ ps ∧ (∀ s ∈ ds, s = ddSeg) ∧
      (∀ s ∈ ps, P s ∧ plainSeg s) ∧ (r = true → ds = []) := by
  have h0 : stkInv P r [] := ⟨[], [], rfl, by simp, by simp, fun _ => rfl⟩
  rcases stkInv_foldl P r segs hsegs [] h0 with ⟨a, b, heq, ha, hb, hr⟩
  refine ⟨b.reverse, a.reverse, ?_, ?_, ?_, ?_⟩
  · simp [cleanSegs, heq]
  · intro s hs; exact hb s (List.mem_reverse.mp hs)
  · intro s hs; exact ha s (List.mem_reverse.mp hs)
  · intro hrt; simp [hr hrt]

theorem foldl_cleanPush_dds (ds : List (List Char)) (hds : ∀ s ∈ ds, s = ddSeg) :
    ∀ stk, (∀ s ∈ stk, s = ddSeg) → ds.foldl (cleanPush false) stk = ds.reverse ++ stk := by
  induction ds with
  | nil => intro stk _; rfl
  | cons x ds ih =>
    intro stk hstk
    have hx : x = ddSeg := hds x (by simp)
    subst hx
    have hstep : cleanPush false stk ddSeg = ddSeg :: stk := by
      cases stk with
      | nil => simp [cleanPush, ddSeg]
      | cons t rest =>
        have ht : t = ddSeg := hstk t (by simp)
        simp [cleanPush, ddSeg, ht]
    rw [List.foldl_cons, hstep,
      ih (fun s hs => hds s (List.mem_cons_of_mem _ hs)) (ddSeg :: stk)
        (fun s hs => by
          rcases List.mem_cons.mp hs with rfl | hs
          · rfl
          · exact hstk s hs)]
    simp

/-- A canonical segment list (`".."` run then plain segments, the run empty
when rooted) is a fixed point of `cleanSegs`. -/
theorem cleanSegs_canonical (r) (ds ps : List (List Char))
    (hds : ∀ s ∈ ds, s = ddSeg) (hps : ∀ s ∈ ps, plainSeg s)
    (hr : r = true → ds = []) : cleanSegs r (ds ++ ps) = ds ++ ps := by
  cases r with
  | true =>
    rw [hr rfl] at *
    simp only [List.nil_append]
    simp [cleanSegs, foldl_cleanPush_plains true ps hps []]
  | false =>
    simp only [cleanSegs, List.foldl_append]
    rw [foldl_cleanPush_dds ds hds [] (by simp),
      foldl_cleanPush_plains false ps hps (ds.reverse ++ [])]
    simp

theorem cleanSegs_append_plains (r : Bool) (A X : List (List Char))
    (hX : ∀ s ∈ X, plainSeg s) :
    cleanSegs r (A ++ [] :: X) = cleanSegs r A ++ X := by
  simp only [cleanSegs, List.foldl_append, List.foldl_cons, cleanPush_nil]
  rw [foldl_cleanPush_plains r X hX]
  simp

theorem cleanSegs_append_two_nil (r : Bool) (A : List (List Char)) :
    cleanSegs r (A ++ [[], []]) = cleanSegs r A := by
  simp only [cleanSegs, List.foldl_append, List.foldl_cons, List.foldl_nil, cleanPush_nil]

theorem cleanSegs_cons_nil (r : Bool) (segs : List (List Char)) :
    cleanSegs r ([] :: segs) = cleanSegs r segs := by
  simp only [cleanSegs, List.foldl_cons, cleanPush_nil]

/-! ### Rootedness of reassembled paths -/

theorem isRooted_append (a w : List Char) (ha : a ≠ []) : isRooted (a ++ w) = isRooted a := by
  cases a with
  | nil => exact absurd rfl ha
  | cons c t => rfl

theorem notRooted_of_noSlash (s : List Char) (h1 : s ≠ []) (h2 : noSlash s) :
    isRooted s = false := by
  cases s with
  | nil => exact absurd rfl h1
  | cons c t => simp [isRooted, h2 c (by simp)]

theorem joinSegs_not_rooted (L : List (List Char)) (hne : L ≠ [])
    (h : ∀ s ∈ L, s ≠ [] ∧ noSlash s) : isRooted (joinSegs L) = false := by
  cases L with
  | nil => exact absurd rfl hne
  | cons x rest =>
    have hx := h x (by simp)
    cases rest with
    | nil => exact notRooted_of_noSlash x hx.1 hx.2
    | cons y r2 =>
      have hj : joinSegs (x :: y :: r2) = x ++ '/' :: joinSegs (y :: r2) := rfl
      rw [hj, isRooted_append x _ hx.1]
      exact notRooted_of_noSlash x hx.1 hx.2

/-! ### Cleaning preserves where a path resolves -/

/-- `path.Clean` changes neither a path's rootedness nor the location it
resolves to. -/
theorem resolvedSegs_pathClean (s : List Char) (hs : s ≠ []) :
    isRooted (pathClean s) = isRooted s ∧
      resolvedSegs (pathClean s) = cleanSegs (isRooted s) (splitSegs s) := by
  obtain ⟨ds, ps, hL, hds, hps, hrt⟩ :=
    cleanSegs_shape noSlash (isRooted s) (splitSegs s)
      (splitAux_noSlash s [] (by simp))
  have hLelem : ∀ x ∈ cleanSegs (isRooted s) (splitSegs s), x ≠ [] ∧ noSlash x := by
    intro x hx
    rw [hL] at hx
    rcases List.mem_append.mp hx with hx | hx
    · have hxd := hds x hx
      subst hxd
      refine ⟨by simp [ddSeg], ?_⟩
      intro c hc
      simp [ddSeg] at hc
      subst hc
      decide
    · exact ⟨(hps x hx).2.1, (hps x hx).1⟩
  cases hr : isRooted s with
  | true =>
    rw [hr] at hL hLelem
    rw [hrt hr, List.nil_append] at hL
    have hclean : pathClean s = '/' :: joinSegs (cleanSegs true (splitSegs s)) := by
      simp [pathClean, hs, hr]
    constructor
    · rw [hclean]; simp [isRooted]
    · rw [hclean]
      have hra : isRooted ('/' :: joinSegs (cleanSegs true (splitSegs s))) = true := by
        simp [isRooted]
      unfold resolvedSegs
      rw [hra, splitSegs_slash_cons]
      by_cases hnil : cleanSegs true (splitSegs s) = []
      · rw [hnil]
        simp only [joinSegs]
        show cleanSegs true ([] :: splitSegs []) = []
        rfl
      · rw [splitSegs_join _ hnil hLelem, cleanSegs_cons_nil, hL]
        simpa using cleanSegs_canonical true [] ps (by simp)
          (fun x hx => (hps x hx).2) (fun _ => rfl)
  | false =>
    rw [hr] at hL hLelem
    by_cases hnil : cleanSegs false (splitSegs s) = []
    · have hclean : pathClean s = ['.'] := by
        simp [pathClean, hs, hr, hnil]
      rw [hclean, hnil]
      constructor
      · simp [isRooted]
      · show resolvedSegs ['.'] = []
        rfl
    · have hclean : pathClean s = joinSegs (cleanSegs false (splitSegs s)) := by
        simp [pathClean, hs, hr, hnil]
      have hnr : isRooted (joinSegs (cleanSegs false (splitSegs s))) = false :=
        joinSegs_not_rooted _ hnil hLelem
      constructor
      · rw [hclean, hnr]
      · rw [hclean]
        unfold resolvedSegs
        rw [hnr, splitSegs_join _ hnil hLelem, hL]
        exact cleanSegs_canonical false ds ps hds (fun x hx => (hps x hx).2)
          (by simp)

/-! ### The join of a rooted-cleaned name onto a root stays within it -/

theorem filepathJoin_staysWithin (root nd : List Char) (hroot : root ≠ []) :
    staysWithin root (filepathJoin root (pathClean ('/' :: nd))) := by
  -- the cleaned absolute form of the request name and its segments
  obtain ⟨ds0, ps0, hN, hds0, hps0, hrt0⟩ :=
    cleanSegs_shape noSlash true (splitSegs ('/' :: nd))
      (splitAux_noSlash _ [] (by simp))
  rw [hrt0 rfl, List.nil_append] at hN
  have habs : pathClean ('/' :: nd) = '/' :: joinSegs (cleanSegs true (splitSegs ('/' :: nd))) := by
    simp [pathClean, isRooted]
  have hNplain : ∀ x ∈ cleanSegs true (splitSegs ('/' :: nd)), plainSeg x := by
    intro x hx; rw [hN] at hx; exact (hps0 x hx).2
  have hNelem : ∀ x ∈ cleanSegs true (splitSegs ('/' :: nd)), x ≠ [] ∧ noSlash x := by
    intro x hx; rw [hN] at hx; exact ⟨(hps0 x hx).2.1, (hps0 x hx).1⟩
  -- the joined path before its final Clean
  have hjoin : filepathJoin root (pathClean ('/' :: nd)) =
      pathClean (root ++ '/' :: pathClean ('/' :: nd)) := by
    simp [filepathJoin, hroot]
  have htne : root ++ '/' :: pathClean ('/' :: nd) ≠ [] := by
    cases root with
    | nil => exact absurd rfl hroot
    | cons c t => simp
  have htr : isRooted (root ++ '/' :: pathClean ('/' :: nd)) = isRooted root :=
    isRooted_append root _ hroot
  obtain ⟨hpc1, hpc2⟩ := resolvedSegs_pathClean (root ++ '/' :: pathClean ('/' :: nd)) htne
  -- the cleaned segments of the joined path: root's resolution then the name's
  have hsplit : splitSegs (root ++ '/' :: pathClean ('/' :: nd)) =
      splitSegs root ++ splitSegs (pathClean ('/' :: nd)) :=
    splitAux_append root _ []
  have hkey : cleanSegs (isRooted root) (splitSegs (root ++ '/' :: pathClean ('/' :: nd))) =
      cleanSegs (isRooted root) (splitSegs root) ++ cleanSegs true (splitSegs ('/' :: nd)) := by
    rw [hsplit, habs, splitSegs_slash_cons]
    by_cases hnil : cleanSegs true (splitSegs ('/' :: nd)) = []
    · rw [hnil]
      simp only [joinSegs]
      show cleanSegs _ (splitSegs root ++ [[], []]) = _
      rw [cleanSegs_append_two_nil]
      simp
    · rw [splitSegs_join _ hnil hNelem]
      exact cleanSegs_append_plains _ _ _ hNplain
  refine ⟨?_, cleanSegs true (splitSegs ('/' :: nd)), ?_, ?_⟩
  · rw [hjoin, hpc1, htr]
  · rw [hjoin]
    show resolvedSegs (pathClean (root ++ '/' :: pathClean ('/' :: nd))) = _
    rw [hpc2, htr, hkey]
    rfl
  · intro hdd
    exact absurd rfl (hNplain _ hdd).2.2

/-! ## server.go: the Server struct and url2path -/

/-- The `Server` struct's configuration fields (`server.go`).  The storage
backend `Fs` is not a field here: the in-memory backend state is passed to
each handler explicitly, and `url2path` ignores it. -/
structure Server where
  trimPrefix : String
  readOnly : Bool
  listings : Bool
deriving DecidableEq, Repr

/-- Models `strings.TrimPrefix(s, pre)`: drop `pre` when it starts `s`,
otherwise return `s` unchanged. -/
def goTrimPrefixStr (s pre : String) : String :=
  if pre.data.isPrefixOf s.data then ⟨s.data.drop pre.data.length⟩ else s

/-- Models `strings.Trim(s, "/")`: remove leading and trailing `'/'`
characters. -/
def goTrimSlashes (s : String) : String :=
  ⟨((s.data.dropWhile (fun c => c = '/')).reverse.dropWhile (fun c => c = '/')).reverse⟩

/-- Models `Server.url2path`: the empty URL path maps to `"/"`; when
stripping the configured prefix shortened the path the remainder is
trimmed of `'/'`; otherwise the result falls back to `"/"`. -/
def url2path (srv : Server) (uPath : String) : String :=
  if uPath = "" then "/"
  else if (goTrimPrefixStr uPath srv.trimPrefix).length < uPath.length then
    goTrimSlashes (goTrimPrefixStr uPath srv.trimPrefix)
  else "/"

/-- The resolver contract as the specification words it: `"/"` for the
empty path, `"/"` when the path does not start with the prefix, and
otherwise the path with the prefix stripped and `'/'` trimmed at both
ends.  Stated from the spec, for comparison with `url2path`. -/
def url2pathSpec (srv : Server) (uPath : String) : String :=
  if uPath = "" then "/"
  else if srv.trimPrefix.data.isPrefixOf uPath.data then
    goTrimSlashes (goTrimPrefixStr uPath srv.trimPrefix)
  else "/"

theorem stringDataNeNil (s : String) (h : s ≠ "") : s.data ≠ [] := by
  intro hd
  apply h
  cases s with
  | mk l =>
    cases hd
    rfl

/-- C1: `Dir.sanitizePath` fails with `ErrInvalidCharPath` exactly when the
name contains a null byte (the host-separator clause of the guard is
vacuous on a Unix host, where the separator is `'/'`); otherwise it returns
the host path built by cleaning the slash-rooted name and joining it onto
the backend root, and that path always stays within the root: it resolves
to the root's own resolution extended only by plain (non-`".."`)
segments. -/
theorem sanitizePathSafe (d name : String) :
    (sanitizePath d name = .error .ErrInvalidCharPath ↔ name.data.contains '\x00' = true) ∧
    ∀ p : String, sanitizePath d name = .ok p →
      p.data = filepathJoin (if d = "" then "." else d).data (pathClean ('/' :: name.data)) ∧
      staysWithin (if d = "" then "." else d).data p.data := by
  constructor
  · by_cases h : name.data.contains '\x00' = true
    · simp [sanitizePath, h]
    · simp [sanitizePath, h]
  · intro p hp
    unfold sanitizePath at hp
    split at hp
    · cases hp
    · cases hp
      refine ⟨rfl, ?_⟩
      apply filepathJoin_staysWithin
      by_cases hd : d = ""
      · rw [if_pos hd]
        decide
      · rw [if_neg hd]
        exact stringDataNeNil d hd

/-- Witness for C1 at a concrete traversal attempt: the name
`"a/../../etc"` is sanitized to `"/srv/etc"`, which stays within the
root `"/srv"`. -/
theorem sanitizePathSafeWitness :
    sanitizePath "/srv" "a/../../etc" = .ok "/srv/etc" ∧
      staysWithin (if "/srv" = "" then "." else "/srv").data "/srv/etc".data := by
  refine ⟨by rfl, ?_⟩
  exact ((sanitizePathSafe "/srv" "a/../../etc").2 "/srv/etc" (by rfl)).2

/-- C3 counterexample: with an empty configured prefix, every nonempty URL
path starts with the prefix, so the claim requires the stripped-and-trimmed
remainder (`"a"` for `"/a"`); the code instead requires stripping to
shorten the path, and falls back to `"/"`. -/
theorem url2pathEmptyPrefixCounterexample :
    url2path ⟨"", false, false⟩ "/a" = "/" ∧
      url2pathSpec ⟨"", false, false⟩ "/a" = "a" ∧
      url2path ⟨"", false, false⟩ "/a" ≠ url2pathSpec ⟨"", false, false⟩ "/a" := by
  refine ⟨by rfl, by rfl, ?_⟩
  decide

/-- C3 amended: `url2path` returns `"/"` for the empty raw path; when the
configured prefix is nonempty and starts the raw path it returns the
remainder after the prefix with leading and trailing `'/'` trimmed; in
every other case (prefix not matching, or prefix empty) it returns
`"/"`. -/
theorem url2pathCharacterization (srv : Server) (uPath : String) :
    url2path srv uPath =
      if uPath = "" then "/"
      else if srv.trimPrefix ≠ "" ∧ srv.trimPrefix.data.isPrefixOf uPath.data then
        goTrimSlashes ⟨uPath.data.drop srv.trimPrefix.data.length⟩
      else "/" := by
  by_cases hu : uPath = ""
  · simp [url2path, hu]
  · rw [if_neg hu]
    by_cases hp : srv.trimPrefix.data.isPrefixOf uPath.data
    · have hstrip : goTrimPrefixStr uPath srv.trimPrefix =
          ⟨uPath.data.drop srv.trimPrefix.data.length⟩ := by
        unfold goTrimPrefixStr
        rw [if_pos hp]
      have hlen : (goTrimPrefixStr uPath srv.trimPrefix).length =
          uPath.data.length - srv.trimPrefix.data.length := by
        rw [hstrip]
        show (uPath.data.drop srv.trimPrefix.data.length).length = _
        exact List.length_drop _ _
      by_cases hpre : srv.trimPrefix = ""
      · have h0 : srv.trimPrefix.data.length = 0 := by rw [hpre]; rfl
        have hnlt : ¬ (goTrimPrefixStr uPath srv.trimPrefix).length < uPath.length := by
          rw [hlen, h0, Nat.sub_zero]
          exact Nat.lt_irrefl _
        unfold url2path
        rw [if_neg hu, if_neg hnlt, if_neg (fun hh => hh.1 hpre)]
      · have hlt : (goTrimPrefixStr uPath srv.trimPrefix).length < uPath.length := by
          rw [hlen]
          exact Nat.sub_lt (List.length_pos.mpr (stringDataNeNil _ hu))
            (List.length_pos.mpr (stringDataNeNil _ hpre))
        unfold url2path
        rw [if_neg hu, if_pos hlt, hstrip, if_pos ⟨hpre, hp⟩]
    · have hsame : goTrimPrefixStr uPath srv.trimPrefix = uPath := by
        unfold goTrimPrefixStr
        rw [if_neg hp]
      unfold url2path
      rw [if_neg hu, hsame, if_neg (Nat.lt_irrefl _), if_neg (fun hh => hp hh.2)]

/-! ## The storage backend as explicit state

The handlers consume the `FileSystem` interface `{Open, Create, Mkdir,
Remove}` with handles `{Stat, Read, Write, Close}`.  We instantiate it
with the in-memory backend the design calls for in testing: a store of
nodes keyed by the logical name the server passes.  Environmental
nondeterminism of the host filesystem is part of a node's state: a file
carries whether its `Stat` and its `Remove` succeed; a fresh or truncated
file stats and removes cleanly.  The names `""`, `"."` and `"/"` denote
the backend root, which always exists as a directory. -/

/-- A stored node: a regular file (content, modification time, whether
`Stat` succeeds on it, whether `Remove` succeeds on it) or a directory. -/
inductive Node where
  | file (content : String) (modTime : Nat) (statOk : Bool) (removeOk : Bool)
  | dir (modTime : Nat)
deriving DecidableEq, Repr

/-- The in-memory backend state: newest binding first. -/
structure Fs where
  entries : List (String × Node)
deriving DecidableEq, Repr

/-- Logical names denoting the backend root itself. -/
def rootLike (p : String) : Bool := p = "/" || p = "." || p = ""

def lookupEntries : List (String × Node) → String → Option Node
  | [], _ => none
  | (k, n) :: rest, p => if k = p then some n else lookupEntries rest p

/-- The node a name denotes, if any; the root names always denote a
directory. -/
def Fs.find (fs : Fs) (p : String) : Option Node :=
  if rootLike p then some (.dir 0) else lookupEntries fs.entries p

def Fs.insert (fs : Fs) (p : String) (n : Node) : Fs := ⟨(p, n) :: fs.entries⟩

def eraseEntries : List (String × Node) → String → List (String × Node)
  | [], _ => []
  | (k, n) :: rest, p => if k = p then eraseEntries rest p else (k, n) :: eraseEntries rest p

def Fs.erase (fs : Fs) (p : String) : Fs := ⟨eraseEntries fs.entries p⟩

/-- Does any entry live strictly below `p`? -/
def Fs.hasChild (fs : Fs) (p : String) : Bool :=
  fs.entries.any (fun e => (p ++ "/").data.isPrefixOf e.1.data)

/-- Models `File.Stat` on an open handle: `(isDir, modTime)`, or failure. -/
def Node.statRes : Node → Option (Bool × Nat)
  | .file _ m ok _ => if ok then some (false, m) else none
  | .dir m => some (true, m)

/-- The bytes `Read` returns until EOF (a directory handle yields none). -/
def Node.contentOf : Node → String
  | .file c _ _ _ => c
  | .dir _ => ""

/-- Models `os.Create` through the backend: fails on an existing directory;
truncates an existing file; creates a new file when the parent directory
(`path.Dir` of the name) exists. -/
def Fs.create (fs : Fs) (p : String) : Option Fs :=
  match fs.find p with
  | some (.dir _) => none
  | some (.file _ _ _ _) => some (fs.insert p (.file "" 0 true true))
  | none =>
    match fs.find (goPathDir p) with
    | some (.dir _) => some (fs.insert p (.file "" 0 true true))
    | _ => none

/-- Models `os.Remove` through the backend: fails on a missing name, on a
file whose removal the environment denies, and on a non-empty directory. -/
def Fs.remove (fs : Fs) (p : String) : Option Fs :=
  match fs.find p with
  | none => none
  | some (.file _ _ _ rmOk) => if rmOk then some (fs.erase p) else none
  | some (.dir _) => if fs.hasChild p then none else some (fs.erase p)

/-- Models `os.MkdirAll` through the backend (`Dir.Mkdir` calls it): an
existing directory is kept, an existing file is an error, and otherwise
the parent chain is created first, then the directory itself.  The fuel
bounds the parent recursion; it exceeds the parent-chain length of every
name. -/
def mkdirAllAux : Nat → Fs → String → Option Fs
  | 0, _, _ => none
  | fuel + 1, fs, p =>
    match fs.find p with
    | some (.dir _) => some fs
    | some (.file _ _ _ _) => none
    | none =>
      match mkdirAllAux fuel fs (goPathDir p) with
      | none => none
      | some fs1 => some (fs1.insert p (.dir 0))

def Fs.mkdirAll (fs : Fs) (p : String) : Option Fs := mkdirAllAux (p.length + 1) fs p

/-- Overwrite the content of the file at `p` (the body copy of a PUT). -/
def Fs.writeContent (fs : Fs) (p : String) (body : String) : Fs :=
  match fs.find p with
  | some (.file _ m so ro) => fs.insert p (.file body m so ro)
  | _ => fs

/-! ## Backend-call traces -/

/-- One backend interface call, as the handlers make them. -/
inductive FsOp where
  | opOpen (name : String) (ok : Bool)
  | opStat (ok : Bool)
  | opClose
  | opCreate (name : String) (ok : Bool)
  | opMkdir (name : String) (ok : Bool)
  | opRemove (name : String) (ok : Bool)
  | opWrite (name : String)
deriving DecidableEq, Repr

/-- Calls that can change backend state. -/
def FsOp.isMutation : FsOp → Bool
  | .opCreate _ _ => true
  | .opMkdir _ _ => true
  | .opRemove _ _ => true
  | .opWrite _ => true
  | _ => false

def FsOp.isOpenOk : FsOp → Bool
  | .opOpen _ ok => ok
  | _ => false

def FsOp.isClose : FsOp → Bool
  | .opClose => true
  | _ => false

/-! ## server.go helpers: pathExists and pathIsDirectory -/

/-- Models `Server.pathExists`: open, close, report success of the open. -/
def pathExists (fs : Fs) (p : String) : Bool × List FsOp :=
  match fs.find p with
  | none => (false, [.opOpen p false])
  | some _ => (true, [.opOpen p true, .opClose])

/-- Models `Server.pathIsDirectory`: open (failure ⇒ false), stat
(failure ⇒ close and false), else report `IsDir` and close. -/
def pathIsDirectory (fs : Fs) (p : String) : Bool × List FsOp :=
  match fs.find p with
  | none => (false, [.opOpen p false])
  | some n =>
    match n.statRes with
    | none => (false, [.opOpen p true, .opStat false, .opClose])
    | some fi => (fi.1, [.opOpen p true, .opStat true, .opClose])

/-! ## GET and HEAD: serveResource -/

/-- The observable HTTP response of a handler: status, the Content-Length
and Last-Modified headers when set, and the body bytes written. -/
structure Response where
  status : Nat
  contentLength : Option Nat
  lastModified : Option Nat
  body : String
deriving DecidableEq, Repr

/-- Models `http.Error(w, msg, 404)`: bare status, body `msg` plus a
newline. -/
def err404 (msg : String) : Response :=
  { status := StatusNotFound, contentLength := none, lastModified := none,
    body := msg ++ "\n" }

/-- Models the slice of `net/http.ServeContent` these handlers exercise
(no Range support): the content size is obtained by seeking to the end;
Last-Modified is sent for a nonzero time; an `If-Modified-Since` time at
or after the modification time short-circuits to 304 without content
headers or body; otherwise 200 with Content-Length set to the size and
the content bytes as body — omitted for a HEAD request. -/
def serveContentModel (method : String) (modTime : Nat) (ims : Option Nat)
    (content : String) (size : Nat) : Response :=
  let lm := if modTime ≠ 0 then some modTime else none
  let ok200 : Response :=
    { status := StatusOK, contentLength := some size, lastModified := lm,
      body := if method = "HEAD" then "" else content }
  match ims with
  | some t =>
    if modTime ≠ 0 ∧ modTime ≤ t then
      { status := StatusNotModified, contentLength := none, lastModified := lm, body := "" }
    else ok200
  | none => ok200

/-- The zero-length, always-at-EOF stream `emptyFile` (`Read` returns
`(0, io.EOF)`, `Seek` returns 0): as a content source it has no bytes and
seeking to its end reports size 0. -/
def emptyFileBytes : String := ""

def emptyFileSize : Nat := 0

/-- Models `Server.serveResource`: resolve the URL, open (failure ⇒ 404
echoing the request URI), stat (failure ⇒ 404 echoing the request URI,
handle still closed by the deferred Close), then hand the open handle —
or `emptyFile` when `serveContent` is false — to `http.ServeContent`. -/
def serveResource (srv : Server) (fs : Fs) (uPath ruri method : String)
    (ims : Option Nat) (serveContent : Bool) : Response × List FsOp :=
  let path := url2path srv uPath
  match fs.find path with
  | none => (err404 ruri, [.opOpen path false])
  | some f =>
    match f.statRes with
    | none => (err404 ruri, [.opOpen path true, .opStat false, .opClose])
    | some fi =>
      let resp :=
        if serveContent then
          serveContentModel method fi.2 ims f.contentOf f.contentOf.length
        else
          serveContentModel method fi.2 ims emptyFileBytes emptyFileSize
      (resp, [.opOpen path true, .opStat true, .opClose])

/-- Models `Server.doGet`. -/
def doGet (srv : Server) (fs : Fs) (uPath ruri : String) (ims : Option Nat) :
    Response × List FsOp :=
  serveResource srv fs uPath ruri "GET" ims true

/-- Models `Server.doHead`. -/
def doHead (srv : Server) (fs : Fs) (uPath ruri : String) (ims : Option Nat) :
    Response × List FsOp :=
  serveResource srv fs uPath ruri "HEAD" ims false

/-! ## DELETE -/

/-- What a handler leaves behind: the status written, the backend state
after the call, and the trace of backend calls. -/
structure HandlerOut where
  status : Nat
  fs : Fs
  trace : List FsOp
deriving DecidableEq, Repr

/-- `deleteResource`'s result: the status written (if any), the backend
state, the trace, and the boolean the function returns. -/
structure DeleteOut where
  status : Option Nat
  fs : Fs
  trace : List FsOp
  ret : Bool
deriving DecidableEq, Repr

/-- Models `Server.deleteResource`: 404 if the path does not exist; a
non-directory is removed through the backend (failure ⇒ 500); a directory
is deliberately left alone; on success 204 is written when `setStatus`. -/
def deleteResource (fs : Fs) (path : String) (setStatus : Bool) : DeleteOut :=
  let ex := pathExists fs path
  if ¬ex.1 then ⟨some StatusNotFound, fs, ex.2, false⟩
  else
    let isDir := pathIsDirectory fs path
    if ¬isDir.1 then
      match fs.remove path with
      | none =>
        ⟨some StatusInternalServerError, fs, ex.2 ++ isDir.2 ++ [.opRemove path false], false⟩
      | some fs1 =>
        ⟨if setStatus then some StatusNoContent else none, fs1,
          ex.2 ++ isDir.2 ++ [.opRemove path true], true⟩
    else
      ⟨if setStatus then some StatusNoContent else none, fs, ex.2 ++ isDir.2, true⟩

/-- Models `Server.doDelete`: 403 with no backend interaction when
read-only, else `deleteResource` on the resolved path with `setStatus`. -/
def doDelete (srv : Server) (fs : Fs) (uPath : String) : HandlerOut :=
  if srv.readOnly then ⟨StatusForbidden, fs, []⟩
  else
    let r := deleteResource fs (url2path srv uPath) true
    ⟨r.status.getD 0, r.fs, r.trace⟩

/-! ## PUT

`server.go` carries two variants of `doPut`.  The first (lines 210–275)
has the directory check commented out and calls `Fs.Mkdir` on
`path.Dir(myPath)` before creating; the second (lines 472–524) checks
`pathIsDirectory` (405) and does not call Mkdir.  A request body is a
`String` (the bytes `io.Copy` transfers) plus a flag telling whether the
copy ends in an I/O error after those bytes. -/

/-- Models the second `doPut` (server.go lines 472–524): read-only ⇒ 403;
a directory target ⇒ 405; otherwise record existence, create
(truncate-or-new, failure ⇒ 409), copy the body (failure ⇒ 409 and a
double Close — once inside the error branch, once at the end), else 204
when the path pre-existed and 201 when new. -/
def doPutSecond (srv : Server) (fs : Fs) (uPath body : String) (copyErr : Bool) :
    HandlerOut :=
  if srv.readOnly then ⟨StatusForbidden, fs, []⟩
  else
    let path := url2path srv uPath
    let isDir := pathIsDirectory fs path
    if isDir.1 then ⟨StatusMethodNotAllowed, fs, isDir.2⟩
    else
      let ex := pathExists fs path
      match fs.create path with
      | none => ⟨StatusConflict, fs, isDir.2 ++ ex.2 ++ [.opCreate path false]⟩
      | some fs1 =>
        let fs2 := fs1.writeContent path body
        if copyErr then
          ⟨StatusConflict, fs2,
            isDir.2 ++ ex.2 ++ [.opCreate path true, .opWrite path, .opClose, .opClose]⟩
        else
          ⟨if ex.1 then StatusNoContent else StatusCreated, fs2,
            isDir.2 ++ ex.2 ++ [.opCreate path true, .opWrite path, .opClose]⟩

/-- Models the first `doPut` (server.go lines 210–275): read-only ⇒ 403;
`Fs.Mkdir(path.Dir(myPath))` runs first and a failure is only logged; then
existence check, create (failure ⇒ 409), body copy (failure ⇒ 409), else
204/201; one Close at the end. -/
def doPutFirst (srv : Server) (fs : Fs) (uPath body : String) (copyErr : Bool) :
    HandlerOut :=
  if srv.readOnly then ⟨StatusForbidden, fs, []⟩
  else
    let myPath := url2path srv uPath
    let d := goPathDir myPath
    let mk := fs.mkdirAll d
    let fs1 := mk.getD fs
    let ex := pathExists fs1 myPath
    match fs1.create myPath with
    | none =>
      ⟨StatusConflict, fs1, .opMkdir d mk.isSome :: ex.2 ++ [.opCreate myPath false]⟩
    | some fs2 =>
      let fs3 := fs2.writeContent myPath body
      if copyErr then
        ⟨StatusConflict, fs3,
          .opMkdir d mk.isSome :: ex.2 ++ [.opCreate myPath true, .opWrite myPath, .opClose]⟩
      else
        ⟨if ex.1 then StatusNoContent else StatusCreated, fs3,
          .opMkdir d mk.isSome :: ex.2 ++ [.opCreate myPath true, .opWrite myPath, .opClose]⟩

/-! ## Small facts about the backend state -/

theorem notRootLike_of_find_none (fs : Fs) (p : String) (h : fs.find p = none) :
    rootLike p = false := by
  cases hr : rootLike p
  · rfl
  · simp [Fs.find, hr] at h

theorem notRootLike_of_find_file (fs : Fs) (p c : String) (mt : Nat) (so ro : Bool)
    (h : fs.find p = some (.file c mt so ro)) : rootLike p = false := by
  cases hr : rootLike p
  · rfl
  · simp [Fs.find, hr] at h

theorem find_insert_self (fs : Fs) (p : String) (n : Node) (hrl : rootLike p = false) :
    (fs.insert p n).find p = some n := by
  simp [Fs.find, Fs.insert, lookupEntries, hrl]

theorem find_insert_ne (fs : Fs) (p k : String) (n : Node) (hk : ¬ p = k) :
    (fs.insert p n).find k = fs.find k := by
  simp [Fs.find, Fs.insert, lookupEntries, hk]

theorem lookupEntries_erase (l : List (String × Node)) (p : String) :
    lookupEntries (eraseEntries l p) p = none := by
  induction l with
  | nil => rfl
  | cons e rest ih =>
    obtain ⟨k, n⟩ := e
    by_cases hk : k = p
    · simp [eraseEntries, hk, ih]
    · simp [eraseEntries, lookupEntries, hk, ih]

theorem find_erase_self (fs : Fs) (p : String) (hrl : rootLike p = false) :
    (fs.erase p).find p = none := by
  simp [Fs.find, Fs.erase, hrl, lookupEntries_erase]

theorem create_shape (fs : Fs) (p : String) (fs2 : Fs) (hc : fs.create p = some fs2) :
    fs2 = fs.insert p (.file "" 0 true true) ∧ rootLike p = false := by
  have hrl : rootLike p = false := by
    cases hr : rootLike p
    · rfl
    · have : fs.find p = some (.dir 0) := by simp [Fs.find, hr]
      rw [Fs.create, this] at hc
      cases hc
  refine ⟨?_, hrl⟩
  rw [Fs.create] at hc
  cases hfind : fs.find p with
  | none =>
    rw [hfind] at hc
    cases hpar : fs.find (goPathDir p) with
    | none => rw [hpar] at hc; cases hc
    | some pn =>
      rw [hpar] at hc
      cases pn with
      | file c mt so ro => cases hc
      | dir m => cases hc; rfl
  | some n =>
    rw [hfind] at hc
    cases n with
    | file c mt so ro => cases hc; rfl
    | dir m => cases hc

/-! ## C2, C5, C7: the guard branches of PUT and DELETE -/

/-- C2: on a non-read-only server, a PUT (second handler variant, the one
with the directory check) whose resolved path denotes a directory returns
405, leaves the backend state untouched, and its trace holds no mutating
backend call — no Create, no body write, no Mkdir, no Remove. -/
theorem doPutOnDirectory405 (srv : Server) (fs : Fs) (uPath body : String)
    (copyErr : Bool) (m : Nat) (hro : srv.readOnly = false)
    (hdir : fs.find (url2path srv uPath) = some (.dir m)) :
    doPutSecond srv fs uPath body copyErr =
      ⟨StatusMethodNotAllowed, fs,
        [.opOpen (url2path srv uPath) true, .opStat true, .opClose]⟩ ∧
    ∀ op ∈ (doPutSecond srv fs uPath body copyErr).trace, op.isMutation = false := by
  have h1 : doPutSecond srv fs uPath body copyErr =
      ⟨StatusMethodNotAllowed, fs,
        [.opOpen (url2path srv uPath) true, .opStat true, .opClose]⟩ := by
    simp [doPutSecond, hro, pathIsDirectory, hdir, Node.statRes]
  refine ⟨h1, ?_⟩
  rw [h1]
  intro op hop
  simp at hop
  rcases hop with rfl | rfl | rfl <;> rfl

/-- Witness for C2. -/
theorem doPutOnDirectory405Witness :
    (⟨"/p", false, false⟩ : Server).readOnly = false ∧
      (⟨[("d", .dir 5)]⟩ : Fs).find (url2path ⟨"/p", false, false⟩ "/p/d") = some (.dir 5) ∧
      doPutSecond ⟨"/p", false, false⟩ ⟨[("d", .dir 5)]⟩ "/p/d" "xx" false =
        ⟨StatusMethodNotAllowed, ⟨[("d", .dir 5)]⟩,
          [.opOpen (url2path ⟨"/p", false, false⟩ "/p/d") true, .opStat true, .opClose]⟩ :=
  ⟨rfl, by decide,
    (doPutOnDirectory405 ⟨"/p", false, false⟩ ⟨[("d", .dir 5)]⟩ "/p/d" "xx" false 5
      rfl (by decide)).1⟩

/-- C5: on a non-read-only server, a DELETE whose resolved path exists and
denotes a directory writes 204 yet removes nothing: the returned backend
state is the input state (so the directory and everything under it are
intact) and the trace holds no mutating call, in particular no Remove. -/
theorem doDeleteOnDirectoryNoop (srv : Server) (fs : Fs) (uPath : String) (m : Nat)
    (hro : srv.readOnly = false)
    (hdir : fs.find (url2path srv uPath) = some (.dir m)) :
    doDelete srv fs uPath =
      ⟨StatusNoContent, fs,
        [.opOpen (url2path srv uPath) true, .opClose,
         .opOpen (url2path srv uPath) true, .opStat true, .opClose]⟩ ∧
    ∀ op ∈ (doDelete srv fs uPath).trace, op.isMutation = false := by
  have h1 : doDelete srv fs uPath =
      ⟨StatusNoContent, fs,
        [.opOpen (url2path srv uPath) true, .opClose,
         .opOpen (url2path srv uPath) true, .opStat true, .opClose]⟩ := by
    simp [doDelete, hro, deleteResource, pathExists, pathIsDirectory, hdir, Node.statRes]
  refine ⟨h1, ?_⟩
  rw [h1]
  intro op hop
  simp at hop
  rcases hop with rfl | rfl | rfl | rfl | rfl <;> rfl

/-- Witness for C5. -/
theorem doDeleteOnDirectoryNoopWitness :
    (⟨"/p", false, false⟩ : Server).readOnly = false ∧
      (⟨[("d", .dir 5), ("d/x", .file "c" 1 true true)]⟩ : Fs).find
        (url2path ⟨"/p", false, false⟩ "/p/d") = some (.dir 5) ∧
      doDelete ⟨"/p", false, false⟩ ⟨[("d", .dir 5), ("d/x", .file "c" 1 true true)]⟩ "/p/d" =
        ⟨StatusNoContent, ⟨[("d", .dir 5), ("d/x", .file "c" 1 true true)]⟩,
          [.opOpen (url2path ⟨"/p", false, false⟩ "/p/d") true, .opClose,
           .opOpen (url2path ⟨"/p", false, false⟩ "/p/d") true, .opStat true, .opClose]⟩ :=
  ⟨rfl, by decide,
    (doDeleteOnDirectoryNoop ⟨"/p", false, false⟩
      ⟨[("d", .dir 5), ("d/x", .file "c" 1 true true)]⟩ "/p/d" 5 rfl (by decide)).1⟩

/-- C7: when the server's ReadOnly flag is set, both PUT variants and
DELETE return 403 immediately: the backend state is returned unchanged and
the trace is empty — the storage backend is never invoked. -/
theorem readOnlyForbidden (srv : Server) (fs : Fs) (uPath body : String) (copyErr : Bool)
    (hro : srv.readOnly = true) :
    doPutFirst srv fs uPath body copyErr = ⟨StatusForbidden, fs, []⟩ ∧
    doPutSecond srv fs uPath body copyErr = ⟨StatusForbidden, fs, []⟩ ∧
    doDelete srv fs uPath = ⟨StatusForbidden, fs, []⟩ := by
  refine ⟨?_, ?_, ?_⟩ <;> simp [doPutFirst, doPutSecond, doDelete, hro]

/-- Witness for C7. -/
theorem readOnlyForbiddenWitness :
    (⟨"/p", true, false⟩ : Server).readOnly = true ∧
      doPutFirst ⟨"/p", true, false⟩ ⟨[("f", .file "c" 1 true true)]⟩ "/p/f" "xx" false =
        ⟨StatusForbidden, ⟨[("f", .file "c" 1 true true)]⟩, []⟩ ∧
      doDelete ⟨"/p", true, false⟩ ⟨[("f", .file "c" 1 true true)]⟩ "/p/f" =
        ⟨StatusForbidden, ⟨[("f", .file "c" 1 true true)]⟩, []⟩ :=
  ⟨rfl,
    (readOnlyForbidden ⟨"/p", true, false⟩ ⟨[("f", .file "c" 1 true true)]⟩ "/p/f" "xx" false
      rfl).1,
    (readOnlyForbidden ⟨"/p", true, false⟩ ⟨[("f", .file "c" 1 true true)]⟩ "/p/f" "xx" false
      rfl).2.2⟩

/-! ## C4: PUT twice — create then truncate-overwrite -/

/-- C4: on a non-read-only server, when the resolved path does not exist
and its parent is a directory (so `Create` succeeds) and the body copies
cleanly, the first PUT returns 201 and stores exactly the first body; a
second PUT to the same path returns 204 and the final content is exactly
the second body — `Create` truncates, it does not append. -/
theorem doPutTwiceTruncates (srv : Server) (fs : Fs) (uPath b1 b2 : String)
    (hro : srv.readOnly = false)
    (h0 : fs.find (url2path srv uPath) = none)
    (m : Nat) (hpar : fs.find (goPathDir (url2path srv uPath)) = some (.dir m)) :
    (doPutSecond srv fs uPath b1 false).status = StatusCreated ∧
    (doPutSecond srv fs uPath b1 false).fs.find (url2path srv uPath) =
      some (.file b1 0 true true) ∧
    (doPutSecond srv (doPutSecond srv fs uPath b1 false).fs uPath b2 false).status =
      StatusNoContent ∧
    (doPutSecond srv (doPutSecond srv fs uPath b1 false).fs uPath b2 false).fs.find
      (url2path srv uPath) = some (.file b2 0 true true) := by
  have hrl : rootLike (url2path srv uPath) = false := notRootLike_of_find_none fs _ h0
  have hc1 : fs.create (url2path srv uPath) =
      some (fs.insert (url2path srv uPath) (.file "" 0 true true)) := by
    simp only [Fs.create, h0, hpar]
  have h1 : doPutSecond srv fs uPath b1 false =
      ⟨StatusCreated,
        (fs.insert (url2path srv uPath) (.file "" 0 true true)).insert (url2path srv uPath)
          (.file b1 0 true true),
        [.opOpen (url2path srv uPath) false, .opOpen (url2path srv uPath) false,
         .opCreate (url2path srv uPath) true, .opWrite (url2path srv uPath), .opClose]⟩ := by
    simp [doPutSecond, hro, pathIsDirectory, pathExists, h0, hc1, Fs.writeContent,
      find_insert_self _ _ _ hrl]
  have hfs1 : (doPutSecond srv fs uPath b1 false).fs =
      (fs.insert (url2path srv uPath) (.file "" 0 true true)).insert (url2path srv uPath)
        (.file b1 0 true true) := by
    rw [h1]
  have hst1 : (doPutSecond srv fs uPath b1 false).status = StatusCreated := by
    rw [h1]
  have hfind1 : ((fs.insert (url2path srv uPath) (.file "" 0 true true)).insert
      (url2path srv uPath) (.file b1 0 true true)).find (url2path srv uPath) =
      some (.file b1 0 true true) := find_insert_self _ _ _ hrl
  have hc2 : ((fs.insert (url2path srv uPath) (.file "" 0 true true)).insert
      (url2path srv uPath) (.file b1 0 true true)).create (url2path srv uPath) =
      some (((fs.insert (url2path srv uPath) (.file "" 0 true true)).insert
        (url2path srv uPath) (.file b1 0 true true)).insert (url2path srv uPath)
        (.file "" 0 true true)) := by
    simp only [Fs.create, hfind1]
  have h2 : doPutSecond srv
      ((fs.insert (url2path srv uPath) (.file "" 0 true true)).insert (url2path srv uPath)
        (.file b1 0 true true)) uPath b2 false =
      ⟨StatusNoContent,
        ((((fs.insert (url2path srv uPath) (.file "" 0 true true)).insert (url2path srv uPath)
          (.file b1 0 true true)).insert (url2path srv uPath) (.file "" 0 true true)).insert
          (url2path srv uPath) (.file b2 0 true true)),
        [.opOpen (url2path srv uPath) true, .opStat true, .opClose,
         .opOpen (url2path srv uPath) true, .opClose,
         .opCreate (url2path srv uPath) true, .opWrite (url2path srv uPath), .opClose]⟩ := by
    simp [doPutSecond, hro, pathIsDirectory, pathExists, hfind1, Node.statRes, hc2,
      Fs.writeContent, find_insert_self _ _ _ hrl]
  refine ⟨hst1, by rw [hfs1]; exact hfind1, ?_, ?_⟩
  · rw [hfs1, h2]
  · rw [hfs1, h2]
    exact find_insert_self _ _ _ hrl

/-- Witness for C4: two PUTs of `"one"` then `"two"` to the fresh path
`f`. -/
theorem doPutTwiceTruncatesWitness :
    ((⟨[]⟩ : Fs).find (url2path ⟨"/p", false, false⟩ "/p/f") = none ∧
      (⟨[]⟩ : Fs).find (goPathDir (url2path ⟨"/p", false, false⟩ "/p/f")) = some (.dir 0)) ∧
    ((doPutSecond ⟨"/p", false, false⟩ ⟨[]⟩ "/p/f" "one" false).status = StatusCreated ∧
      (doPutSecond ⟨"/p", false, false⟩ ⟨[]⟩ "/p/f" "one" false).fs.find
        (url2path ⟨"/p", false, false⟩ "/p/f") = some (.file "one" 0 true true) ∧
      (doPutSecond ⟨"/p", false, false⟩
        (doPutSecond ⟨"/p", false, false⟩ ⟨[]⟩ "/p/f" "one" false).fs "/p/f" "two"
          false).status = StatusNoContent ∧
      (doPutSecond ⟨"/p", false, false⟩
        (doPutSecond ⟨"/p", false, false⟩ ⟨[]⟩ "/p/f" "one" false).fs "/p/f" "two"
          false).fs.find (url2path ⟨"/p", false, false⟩ "/p/f") =
        some (.file "two" 0 true true)) :=
  ⟨⟨by decide, by decide⟩,
    doPutTwiceTruncates ⟨"/p", false, false⟩ ⟨[]⟩ "/p/f" "one" "two" rfl (by decide) 0
      (by decide)⟩

/-! ## C8: the DELETE case analysis -/

/-- C8: on a non-read-only server, DELETE of a missing path returns 404
with no mutation; DELETE of a plain resource goes through the backend's
Remove — a failing removal yields 500 with the state unchanged, a
successful removal yields 204 and the resource is gone. -/
theorem doDeleteStatusCases (srv : Server) (fs : Fs) (uPath : String)
    (hro : srv.readOnly = false) :
    (fs.find (url2path srv uPath) = none →
      doDelete srv fs uPath =
        ⟨StatusNotFound, fs, [.opOpen (url2path srv uPath) false]⟩) ∧
    (∀ c mt so, fs.find (url2path srv uPath) = some (.file c mt so false) →
      (doDelete srv fs uPath).status = StatusInternalServerError ∧
      (doDelete srv fs uPath).fs = fs ∧
      .opRemove (url2path srv uPath) false ∈ (doDelete srv fs uPath).trace) ∧
    (∀ c mt so, fs.find (url2path srv uPath) = some (.file c mt so true) →
      (doDelete srv fs uPath).status = StatusNoContent ∧
      (doDelete srv fs uPath).fs = fs.erase (url2path srv uPath) ∧
      (doDelete srv fs uPath).fs.find (url2path srv uPath) = none ∧
      .opRemove (url2path srv uPath) true ∈ (doDelete srv fs uPath).trace) := by
  refine ⟨?_, ?_, ?_⟩
  · intro h
    simp [doDelete, hro, deleteResource, pathExists, h]
  · intro c mt so h
    have hrm : fs.remove (url2path srv uPath) = none := by
      simp [Fs.remove, h]
    cases so <;>
      simp [doDelete, hro, deleteResource, pathExists, pathIsDirectory, h, Node.statRes, hrm]
  · intro c mt so h
    have hrl : rootLike (url2path srv uPath) = false :=
      notRootLike_of_find_file fs _ c mt so true h
    have hrm : fs.remove (url2path srv uPath) =
        some (fs.erase (url2path srv uPath)) := by
      simp [Fs.remove, h]
    cases so <;>
      simp [doDelete, hro, deleteResource, pathExists, pathIsDirectory, h, Node.statRes, hrm,
        find_erase_self _ _ hrl]

/-- Witness for C8: removing an existing plain file succeeds with 204 and
the file is gone. -/
theorem doDeleteStatusCasesWitness :
    (⟨[("f", .file "c" 1 true true)]⟩ : Fs).find
      (url2path ⟨"/p", false, false⟩ "/p/f") = some (.file "c" 1 true true) ∧
    ((doDelete ⟨"/p", false, false⟩ ⟨[("f", .file "c" 1 true true)]⟩ "/p/f").status =
        StatusNoContent ∧
      (doDelete ⟨"/p", false, false⟩ ⟨[("f", .file "c" 1 true true)]⟩ "/p/f").fs =
        (⟨[("f", .file "c" 1 true true)]⟩ : Fs).erase
          (url2path ⟨"/p", false, false⟩ "/p/f") ∧
      (doDelete ⟨"/p", false, false⟩ ⟨[("f", .file "c" 1 true true)]⟩ "/p/f").fs.find
        (url2path ⟨"/p", false, false⟩ "/p/f") = none ∧
      .opRemove (url2path ⟨"/p", false, false⟩ "/p/f") true ∈
        (doDelete ⟨"/p", false, false⟩ ⟨[("f", .file "c" 1 true true)]⟩ "/p/f").trace) :=
  ⟨by decide,
    (doDeleteStatusCases ⟨"/p", false, false⟩ ⟨[("f", .file "c" 1 true true)]⟩ "/p/f"
      rfl).2.2 "c" 1 true (by decide)⟩

/-! ## C9: serveResource errors and handle release -/

/-- C9: for every GET or HEAD request, an open failure yields 404 with a
body echoing the request URI (a newline is appended by `http.Error`); a
stat failure on the opened handle yields the same 404; and on every exit
path the number of Close calls in the trace equals the number of
successful Opens — the handle is released exactly once. -/
theorem serveResourceContract (srv : Server) (fs : Fs) (uPath ruri method : String)
    (ims : Option Nat) (sc : Bool) :
    (fs.find (url2path srv uPath) = none →
      (serveResource srv fs uPath ruri method ims sc).1.status = StatusNotFound ∧
      (serveResource srv fs uPath ruri method ims sc).1.body = ruri ++ "\n") ∧
    (∀ n, fs.find (url2path srv uPath) = some n → n.statRes = none →
      (serveResource srv fs uPath ruri method ims sc).1.status = StatusNotFound ∧
      (serveResource srv fs uPath ruri method ims sc).1.body = ruri ++ "\n") ∧
    ((serveResource srv fs uPath ruri method ims sc).2.filter FsOp.isOpenOk).length =
      ((serveResource srv fs uPath ruri method ims sc).2.filter FsOp.isClose).length := by
  refine ⟨?_, ?_, ?_⟩
  · intro h
    simp [serveResource, h, err404]
  · intro n h hst
    simp [serveResource, h, hst, err404]
  · cases hf : fs.find (url2path srv uPath) with
    | none => simp [serveResource, hf, FsOp.isOpenOk, FsOp.isClose]
    | some n =>
      cases hst : n.statRes with
      | none => simp [serveResource, hf, hst, FsOp.isOpenOk, FsOp.isClose]
      | some fi => simp [serveResource, hf, hst, FsOp.isOpenOk, FsOp.isClose]

/-- Witness for C9 at a concrete stat failure: 404 echoing the URI, one
successful open, one close. -/
theorem serveResourceContractWitness :
    (⟨[("f", .file "abc" 5 false true)]⟩ : Fs).find
      (url2path ⟨"/p", false, false⟩ "/p/f") = some (.file "abc" 5 false true) ∧
    (Node.file "abc" 5 false true).statRes = none ∧
    ((serveResource ⟨"/p", false, false⟩ ⟨[("f", .file "abc" 5 false true)]⟩ "/p/f" "RURI"
        "GET" none true).1.status = StatusNotFound ∧
      (serveResource ⟨"/p", false, false⟩ ⟨[("f", .file "abc" 5 false true)]⟩ "/p/f" "RURI"
        "GET" none true).1.body = "RURI" ++ "\n") :=
  ⟨by decide, by decide,
    (serveResourceContract ⟨"/p", false, false⟩ ⟨[("f", .file "abc" 5 false true)]⟩ "/p/f"
      "RURI" "GET" none true).2.1 (.file "abc" 5 false true) (by decide) (by decide)⟩

/-! ## C6: HEAD against GET -/

/-- C6 counterexample: for the existing 3-byte resource `f`, GET serves
Content-Length 3 but HEAD — fed the zero-length `emptyFile` stream —
serves Content-Length 0: the response headers are not identical. -/
theorem headVsGetHeadersCounterexample :
    (doGet ⟨"/p", false, false⟩ ⟨[("f", .file "abc" 5 true true)]⟩ "/p/f" "/p/f"
      none).1.contentLength = some 3 ∧
    (doHead ⟨"/p", false, false⟩ ⟨[("f", .file "abc" 5 true true)]⟩ "/p/f" "/p/f"
      none).1.contentLength = some 0 ∧
    (doGet ⟨"/p", false, false⟩ ⟨[("f", .file "abc" 5 true true)]⟩ "/p/f" "/p/f"
      none).1.contentLength ≠
      (doHead ⟨"/p", false, false⟩ ⟨[("f", .file "abc" 5 true true)]⟩ "/p/f" "/p/f"
        none).1.contentLength := by
  refine ⟨by decide, by decide, by decide⟩

/-- C6 (amended): for an existing resource that stats cleanly, HEAD runs
the identical content-negotiation logic as GET, so it yields the same
status and the same Last-Modified header and transmits no body; but its
Content-Length header is computed from the zero-length substitute stream —
0 whenever GET would send the content length — so the headers agree with
GET only for empty resources. -/
theorem headVsGetSameStatusEmptyBody (srv : Server) (fs : Fs) (uPath ruri : String)
    (ims : Option Nat) (n : Node) (fi : Bool × Nat)
    (hf : fs.find (url2path srv uPath) = some n) (hst : n.statRes = some fi) :
    (doHead srv fs uPath ruri ims).1.status = (doGet srv fs uPath ruri ims).1.status ∧
    (doHead srv fs uPath ruri ims).1.body = "" ∧
    (doHead srv fs uPath ruri ims).1.lastModified =
      (doGet srv fs uPath ruri ims).1.lastModified ∧
    (doHead srv fs uPath ruri ims).1.contentLength =
      (doGet srv fs uPath ruri ims).1.contentLength.map (fun _ => 0) := by
  cases ims with
  | none =>
    simp [doHead, doGet, serveResource, hf, hst, serveContentModel, emptyFileBytes,
      emptyFileSize]
  | some t =>
    by_cases hc : fi.2 ≠ 0 ∧ fi.2 ≤ t <;>
      simp [doHead, doGet, serveResource, hf, hst, serveContentModel, hc, emptyFileBytes,
        emptyFileSize]

/-- Witness for the amended C6. -/
theorem headVsGetSameStatusEmptyBodyWitness :
    (⟨[("f", .file "abc" 5 true true)]⟩ : Fs).find
      (url2path ⟨"/p", false, false⟩ "/p/f") = some (.file "abc" 5 true true) ∧
    (Node.file "abc" 5 true true).statRes = some (false, 5) ∧
    ((doHead ⟨"/p", false, false⟩ ⟨[("f", .file "abc" 5 true true)]⟩ "/p/f" "/p/f"
        none).1.status =
      (doGet ⟨"/p", false, false⟩ ⟨[("f", .file "abc" 5 true true)]⟩ "/p/f" "/p/f"
        none).1.status ∧
      (doHead ⟨"/p", false, false⟩ ⟨[("f", .file "abc" 5 true true)]⟩ "/p/f" "/p/f"
        none).1.body = "" ∧
      (doHead ⟨"/p", false, false⟩ ⟨[("f", .file "abc" 5 true true)]⟩ "/p/f" "/p/f"
        none).1.lastModified =
      (doGet ⟨"/p", false, false⟩ ⟨[("f", .file "abc" 5 true true)]⟩ "/p/f" "/p/f"
        none).1.lastModified ∧
      (doHead ⟨"/p", false, false⟩ ⟨[("f", .file "abc" 5 true true)]⟩ "/p/f" "/p/f"
        none).1.contentLength =
      (doGet ⟨"/p", false, false⟩ ⟨[("f", .file "abc" 5 true true)]⟩ "/p/f" "/p/f"
        none).1.contentLength.map (fun _ => 0)) :=
  ⟨by decide, by decide,
    headVsGetSameStatusEmptyBody ⟨"/p", false, false⟩ ⟨[("f", .file "abc" 5 true true)]⟩
      "/p/f" "/p/f" none (.file "abc" 5 true true) (false, 5) (by decide) (by decide)⟩

/-! ## C10: the first PUT variant's Mkdir on the parent -/

/-- `os.MkdirAll` through the backend: on success the target is a
directory in the new state and every other binding is either untouched or
a freshly created directory where nothing existed before. -/
theorem mkdirAllAuxSpec (fuel : Nat) :
    ∀ (fs : Fs) (p : String) (fs1 : Fs), mkdirAllAux fuel fs p = some fs1 →
      (∃ mm, fs1.find p = some (.dir mm)) ∧
      ∀ k, fs1.find k = fs.find k ∨ (fs.find k = none ∧ fs1.find k = some (.dir 0)) := by
  induction fuel with
  | zero =>
    intro fs p fs1 h
    cases h
  | succ fuel ih =>
    intro fs p fs1 h
    simp only [mkdirAllAux] at h
    cases hf : fs.find p with
    | some n =>
      simp only [hf] at h
      cases n with
      | dir m =>
        cases h
        exact ⟨⟨m, hf⟩, fun k => Or.inl rfl⟩
      | file c mt so ro => cases h
    | none =>
      simp only [hf] at h
      cases hr : mkdirAllAux fuel fs (goPathDir p) with
      | none =>
        simp only [hr] at h
        cases h
      | some fs2 =>
        simp only [hr] at h
        cases h
        have hrl : rootLike p = false := notRootLike_of_find_none fs p hf
        obtain ⟨_, hframe⟩ := ih fs (goPathDir p) fs2 hr
        refine ⟨⟨0, find_insert_self fs2 p _ hrl⟩, ?_⟩
        intro k
        by_cases hk : p = k
        · subst hk
          rcases hframe p with he | ⟨hn, _⟩
          · exact Or.inr ⟨hf, find_insert_self fs2 p _ hrl⟩
          · exact Or.inr ⟨hf, find_insert_self fs2 p _ hrl⟩
        · rw [find_insert_ne fs2 p k _ hk]
          exact hframe k

/-- C10: on a non-read-only server, the first `doPut` variant's very first
backend call is `Mkdir` on `path.Dir` of the resolved path; that call has
`MkdirAll` semantics (on success the parent is a directory and only
missing intermediate directories were added); and whatever the subsequent
Create or body copy does, the handler only ever touches the resolved path
itself afterwards, so the created directories survive every failure
branch. -/
theorem doPutFirstMkdirParent (srv : Server) (fs : Fs) (uPath body : String)
    (copyErr : Bool) (hro : srv.readOnly = false) :
    (doPutFirst srv fs uPath body copyErr).trace.head? =
      some (.opMkdir (goPathDir (url2path srv uPath))
        (fs.mkdirAll (goPathDir (url2path srv uPath))).isSome) ∧
    (∀ fs1, fs.mkdirAll (goPathDir (url2path srv uPath)) = some fs1 →
      (∃ mm, fs1.find (goPathDir (url2path srv uPath)) = some (.dir mm)) ∧
      ∀ k, fs1.find k = fs.find k ∨ (fs.find k = none ∧ fs1.find k = some (.dir 0))) ∧
    (∀ k, ¬ k = url2path srv uPath →
      (doPutFirst srv fs uPath body copyErr).fs.find k =
        ((fs.mkdirAll (goPathDir (url2path srv uPath))).getD fs).find k) := by
  refine ⟨?_, ?_, ?_⟩
  · cases hc : ((fs.mkdirAll (goPathDir (url2path srv uPath))).getD fs).create
        (url2path srv uPath) with
    | none => simp [doPutFirst, hro, hc]
    | some fs2 => cases copyErr <;> simp [doPutFirst, hro, hc]
  · intro fs1 h
    exact mkdirAllAuxSpec _ fs _ fs1 h
  · intro k hk
    cases hc : ((fs.mkdirAll (goPathDir (url2path srv uPath))).getD fs).create
        (url2path srv uPath) with
    | none => simp [doPutFirst, hro, hc]
    | some fs2 =>
      obtain ⟨hsh, hrl⟩ := create_shape _ _ _ hc
      have hfind2 : fs2.find (url2path srv uPath) = some (.file "" 0 true true) := by
        rw [hsh]
        exact find_insert_self _ _ _ hrl
      have hw : fs2.writeContent (url2path srv uPath) body =
          fs2.insert (url2path srv uPath) (.file body 0 true true) := by
        simp [Fs.writeContent, hfind2]
      have hfsval : (fs2.writeContent (url2path srv uPath) body).find k =
          ((fs.mkdirAll (goPathDir (url2path srv uPath))).getD fs).find k := by
        rw [hw, find_insert_ne _ _ _ _ (fun h => hk h.symm), hsh,
          find_insert_ne _ _ _ _ (fun h => hk h.symm)]
      cases copyErr <;> simp [doPutFirst, hro, hc, hfsval]

/-- Witness for C10: a PUT to `a/b/c` over an empty backend creates the
directories `a` and `a/b` first. -/
theorem doPutFirstMkdirParentWitness :
    (⟨"/p", false, false⟩ : Server).readOnly = false ∧
    (doPutFirst ⟨"/p", false, false⟩ ⟨[]⟩ "/p/a/b/c" "zz" false).trace.head? =
      some (.opMkdir (goPathDir (url2path ⟨"/p", false, false⟩ "/p/a/b/c"))
        ((⟨[]⟩ : Fs).mkdirAll (goPathDir (url2path ⟨"/p", false, false⟩ "/p/a/b/c"))).isSome) :=
  ⟨rfl,
    (doPutFirstMkdirParent ⟨"/p", false, false⟩ ⟨[]⟩ "/p/a/b/c" "zz" false rfl).1⟩

end Webdav

